import Mathlib

/-!
Verification development for the PDF extraction / cleanup pipeline in
`data_ingestion/pdf_processor.py`.

The Python code is shallowly embedded: Python strings are modelled as
`String` / `List Char` (one `Char` per code point, matching Python's
`len`), Python floats that only ever hold dyadic values (the fixed 0.5 /
30.0 / 0.4 … thresholds and ratios of machine integers) are modelled as
`ℚ`, Python dicts holding the status ledger are modelled as association
lists, and the file-system / PDF-library effects are passed in as explicit
data (per-page extracted text, drawing rectangles, render success flags).
Python's `str.isupper` / `str.islower` / `str.lower` are modelled on the
ASCII range, which is exact for the ASCII-plus-CJK inputs the heuristics
are aimed at (CJK code points are neither upper nor lower case in Python
and are untouched by `str.lower`).
All definitions are kept executable and structurally recursive so that
concrete runs reduce inside the kernel.
-/

/-! ## Fixed thresholds (EXTRACTION / CLEANUP SETTINGS block of the source) -/

/-- Source `MIN_DRAWINGS = 100` — vector primitives to qualify as a diagram page. -/
def MIN_DRAWINGS : ℕ := 100

/-- Source `MIN_DRAWING_COVERAGE = 30.0` — % of page area the drawing bbox must cover. -/
def MIN_DRAWING_COVERAGE : ℚ := 30

/-- Source `MAX_TEXT_FOR_DIAGRAM = 300` — chars; more = spec table, not a diagram. -/
def MAX_TEXT_FOR_DIAGRAM : ℕ := 300

/-- Source `MIN_TEXT_LENGTH_FOR_VALID_PAGE = 50` — a page with less text is "empty". -/
def MIN_TEXT_LENGTH_FOR_VALID_PAGE : ℕ := 50

/-- Source `HEADER_MIN_OCCURRENCE = 0.5` — fraction of pages a line must appear on. -/
def HEADER_MIN_OCCURRENCE : ℚ := 1 / 2

/-- Source `MIN_FRAGMENT_RUN = 4` — consecutive single-word lines needed to rejoin. -/
def MIN_FRAGMENT_RUN : ℕ := 4

/-! ## Character / string primitives

Python's `str.strip()`, `str.split()`, `in` (substring test) and
`str.lower()` re-implemented structurally on `List Char`. -/

/-- Python `str.strip(chars)`: drop the given characters from both ends. -/
def stripChars (bad : Char → Bool) (cs : List Char) : List Char :=
  ((cs.dropWhile bad).reverse.dropWhile bad).reverse

/-- Python `str.strip()` on a char list (whitespace from both ends). -/
def stripWS (cs : List Char) : List Char :=
  stripChars Char.isWhitespace cs

/-- Python `len(text.strip())` for a `String`. -/
def strippedLen (s : String) : ℕ := (stripWS s.data).length

/-- Helper for `splitWords`: accumulate the current word (reversed). -/
def splitWordsAux : List Char → List Char → List (List Char)
  | [], cur => if cur.isEmpty then [] else [cur.reverse]
  | c :: cs, cur =>
    if c.isWhitespace then
      if cur.isEmpty then splitWordsAux cs [] else cur.reverse :: splitWordsAux cs []
    else splitWordsAux cs (c :: cur)

/-- Python `str.split()` (no argument): maximal whitespace-separated words,
empty words dropped. -/
def splitWords (cs : List Char) : List (List Char) := splitWordsAux cs []

/-- Python `sub in s` (substring containment) for char lists. -/
def containsSub (pat : List Char) : List Char → Bool
  | [] => pat.isEmpty
  | c :: cs => pat.isPrefixOf (c :: cs) || containsSub pat cs

/-- Python `str.lower()` (ASCII model, CJK untouched — see header note). -/
def lowerStr (cs : List Char) : List Char := cs.map Char.toLower

/-- A CJK Unified Ideograph, the `[一-鿿]` class of `_CJK_CHAR_RE`. -/
def isCJK (c : Char) : Bool := 0x4e00 ≤ c.toNat && c.toNat ≤ 0x9fff

/-- ASCII model of Python `str.isupper` for one character. -/
def isUpperAscii (c : Char) : Bool := 65 ≤ c.toNat && c.toNat ≤ 90

/-- ASCII model of Python `str.islower` for one character. -/
def isLowerAscii (c : Char) : Bool := 97 ≤ c.toNat && c.toNat ≤ 122

/-- Lengths of the maximal runs of uppercase characters in a char list
(`cur` is the length of the run in progress).  Together with a `filter`
on `3 ≤ length` this is `_GARBLED_UPPERCASE_RE.findall`, i.e. the
non-overlapping maximal matches of `[A-Z]{3,}`. -/
def upperRunLensAux : List Char → ℕ → List ℕ
  | [], cur => if cur = 0 then [] else [cur]
  | c :: cs, cur =>
    if isUpperAscii c then upperRunLensAux cs (cur + 1)
    else if cur = 0 then upperRunLensAux cs 0 else cur :: upperRunLensAux cs 0

/-- Lengths of the maximal `[A-Z]{3,}` matches of the garbled-uppercase
regex in the given text. -/
def garbledUppercaseRuns (cs : List Char) : List ℕ :=
  (upperRunLensAux cs 0).filter (fun n => 3 ≤ n)

/-! ## `_is_garbled_text` (OCR subsystem garbled-text heuristic) -/

/-- Source `_COMMON_ENGLISH_WORDS` — the fixed reference word set of the source
(as char lists; the Python set literal repeats some words, which is
irrelevant for membership). -/
def _COMMON_ENGLISH_WORDS : List (List Char) :=
  (["the", "be", "to", "of", "and", "a", "in", "that", "have", "i",
    "it", "for", "not", "on", "with", "he", "as", "you", "do", "at",
    "this", "but", "his", "by", "from", "they", "we", "say", "her", "she",
    "or", "an", "will", "my", "one", "all", "would", "there", "their", "what",
    "so", "up", "out", "if", "about", "who", "get", "which", "go", "me",
    "is", "are", "was", "were", "been", "being", "has", "had", "does", "did",
    "can", "could", "may", "might", "must", "shall", "should"]).map String.data

/-- The punctuation set of `w.strip('.,;:!?()[]')` in `_is_garbled_text`. -/
def wordPunct (c : Char) : Bool :=
  c = '.' || c = ',' || c = ';' || c = ':' || c = '!' || c = '?' ||
  c = '(' || c = ')' || c = '[' || c = ']'

/-- Source `_is_garbled_text(text)`: heuristic detector for font-encoding garbage.
Direct transcription of the source; the Python float thresholds 0.5, 0.4,
0.05, 0.15, 0.25, 0.1 are dyadic-or-decimal literals modelled exactly in
`ℚ`, and the ratios are ratios of integers. -/
def _is_garbled_text (text : String) : Bool :=
  if strippedLen text < 50 then false
  else
    let cs := text.data
    let cjk_chars : ℕ := cs.countP isCJK
    let uppercase_sequences := garbledUppercaseRuns cs
    let uppercase_chars : ℕ := uppercase_sequences.sum
    let uppercase_count : ℕ := cs.countP isUpperAscii
    let lowercase_count : ℕ := cs.countP isLowerAscii
    let total_alpha : ℕ := uppercase_count + lowercase_count
    -- Case 1: CJK characters mixed with lots of uppercase garbage
    if 5 < cjk_chars && 20 < uppercase_chars &&
        decide ((cjk_chars : ℚ) * (1 / 2) < (uppercase_chars : ℚ)) then true
    -- Case 2: any CJK chars with significant uppercase sequences
    else if 0 < cjk_chars && 30 < uppercase_chars then true
    -- Case 3: pure-ASCII gibberish checks
    else if 100 < total_alpha && cjk_chars = 0 then
      let uppercaseFrac : ℚ :=
        if 0 < total_alpha then (uppercase_count : ℚ) / (total_alpha : ℚ) else 0
      let words := splitWords (lowerStr cs)
      let common_word_count : ℕ :=
        words.countP (fun w => (stripChars wordPunct w) ∈ _COMMON_ENGLISH_WORDS)
      let commonFrac : ℚ :=
        if words.isEmpty then 0 else (common_word_count : ℚ) / (words.length : ℚ)
      if decide ((2 : ℚ) / 5 < uppercaseFrac) && decide (commonFrac < 1 / 20) then true
      else if 5 < uppercase_sequences.length && decide (commonFrac < 3 / 20) then true
      else if decide ((1 : ℚ) / 4 < uppercaseFrac) && decide (commonFrac < 1 / 10) then true
      else false
    else false

/-! ## Extraction-strategy precheck (`_extract_pdf`, lines 710-761)

The precheck samples `min(3, total_pages)` pages of the opened document.
For each sampled page the loop takes `page.extract_text() or ""`, retries
with the PyMuPDF text when that is below the threshold and the page has
non-zero rotation metadata, classifies the resulting text as empty /
garbled / textual, and finally selects full-document OCR iff every
sampled page was classified empty.  `garbled_count` is computed but the
branch consuming it is commented out in the source. -/

/-- The data of one PDF page that the precheck and the per-page rotation
fallback can observe: the pdfplumber text, whether the page appears in
`_get_page_rotations` (non-zero `/Rotate`), and the PyMuPDF text. -/
structure PrePage where
  plumberText : String
  rotated : Bool
  fitzText : String
deriving DecidableEq, Repr

/-- The text a sampled precheck page is classified on: lines 736-740 of
the source replace the pdfplumber text by the PyMuPDF text when the
former strips to fewer than `MIN_TEXT_LENGTH_FOR_VALID_PAGE` characters
and the page is rotated. -/
def effText (p : PrePage) : String :=
  if strippedLen p.plumberText < MIN_TEXT_LENGTH_FOR_VALID_PAGE && p.rotated then
    p.fitzText
  else p.plumberText

/-- EMPTY classification of a sampled page (lines 742-744): stripped text
below the fixed 50-character threshold. -/
def pageEmpty (s : String) : Bool := strippedLen s < MIN_TEXT_LENGTH_FOR_VALID_PAGE

/-- The sampled precheck pages: `pages_to_check = min(3, total_pages)`. -/
def precheckSample (pages : List PrePage) : List PrePage :=
  pages.take (min 3 pages.length)

/-- Source `empty_count` accumulated by the precheck loop. -/
def precheckEmptyCount (pages : List PrePage) : ℕ :=
  (precheckSample pages).countP (fun p => pageEmpty (effText p))

/-- Source `garbled_count` accumulated by the precheck loop (diagnostic only:
the `elif garbled_count > 0` branch is commented out in the source). -/
def precheckGarbledCount (pages : List PrePage) : ℕ :=
  (precheckSample pages).countP
    (fun p => !pageEmpty (effText p) && _is_garbled_text (effText p))

/-- The extraction strategy recorded for a document. -/
inductive ExtStrategy
  | standard
  | ocr_full
  | ocr_mixed (pages : List ℕ)
deriving DecidableEq, Repr

/-- The per-filename OCR override (`force_ocr_config` lookup): absent,
`"all"`, or a list of page numbers. -/
inductive OcrOverride
  | noOverride
  | allPages
  | somePages (ps : List ℕ)
deriving DecidableEq, Repr

/-- The precheck decision (lines 751-761): full OCR iff every sampled
page was classified empty, otherwise standard extraction. -/
def chooseStrategy (pages : List PrePage) : ExtStrategy :=
  if precheckEmptyCount pages = min 3 pages.length then ExtStrategy.ocr_full
  else ExtStrategy.standard

/-- Strategy selection including the static per-filename override table
(lines 719-726): `"all"` forces full OCR, a page list forces mixed
standard+OCR, and otherwise the precheck decides. -/
def strategyFor (ov : OcrOverride) (pages : List PrePage) : ExtStrategy :=
  match ov with
  | OcrOverride.allPages => ExtStrategy.ocr_full
  | OcrOverride.somePages ps => ExtStrategy.ocr_mixed ps
  | OcrOverride.noOverride => chooseStrategy pages

/-! ## Status ledger and the per-file stage loop
(`run_extraction` lines 984-1029, `run_cleanup` lines 1146-1192)

Both stage drivers share the same shape: load the status map, iterate the
files in sorted order, skip a file whose entry already reads `done`
unless `--force` was given, otherwise process it, record `done` or
`error` (with the exception text) in the map, and flush the map to disk
after every processed file. -/

/-- One value of the persisted status map. -/
structure LedgerEntry where
  status : String
  /-- Source `output_dir` / `output` on success, `error` text on failure. -/
  info : String
  /-- Source `datetime.now().isoformat()` at the time the entry was written. -/
  timestamp : String
deriving DecidableEq, Repr

/-- The status map, as an association list keyed by `"<label>/<file>"`. -/
abbrev Ledger := List (String × LedgerEntry)

/-- Dict lookup `status.get(key)`. -/
def lookupEntry (led : Ledger) (k : String) : Option LedgerEntry :=
  led.lookup k

/-- Dict assignment `status[key] = entry`. -/
def upsertEntry (led : Ledger) (k : String) (e : LedgerEntry) : Ledger :=
  (k, e) :: led.filter (fun kv => kv.1 ≠ k)

/-- Source `status.get(key, {}).get("status") == "done"`. -/
def entryDone (led : Ledger) (k : String) : Bool :=
  (lookupEntry led k).map LedgerEntry.status = some "done"

/-- What processing one file does when it is not skipped: either the
worker function returns normally (producing its output artifact) or it
raises an exception with the given message. -/
inductive FileOutcome
  | ok (outPath : String)
  | exc (msg : String)
deriving DecidableEq, Repr

/-- One file reaching the stage loop: its ledger key, what processing it
would do, and the timestamp the loop would record. -/
structure FileJob where
  key : String
  outcome : FileOutcome
  time : String
deriving DecidableEq, Repr

/-- Observable state of one stage run: the in-memory status map, the
output artifacts written so far, and the successive on-disk snapshots of
the status file (`_save_status` is called once after every processed
file; a skipped file `continue`s before reaching it). -/
structure StageState where
  ledger : Ledger
  writes : List String
  flushes : List Ledger
deriving DecidableEq, Repr

/-- The body of the per-file loop shared by `run_extraction` (lines
1002-1027) and `run_cleanup` (lines 1167-1190): skip when the entry is
already `done` and no force flag is set, else process, record `done` /
`error`, and flush the status map. -/
def stageStep (force : Bool) (st : StageState) (j : FileJob) : StageState :=
  if !force && entryDone st.ledger j.key then st
  else
    match j.outcome with
    | FileOutcome.ok outPath =>
      let led := upsertEntry st.ledger j.key ⟨"done", outPath, j.time⟩
      ⟨led, st.writes ++ [outPath], st.flushes ++ [led]⟩
    | FileOutcome.exc msg =>
      let led := upsertEntry st.ledger j.key ⟨"error", msg, j.time⟩
      ⟨led, st.writes, st.flushes ++ [led]⟩

/-- A whole stage run over the sorted file list. -/
def runStage (force : Bool) (st : StageState) (jobs : List FileJob) : StageState :=
  jobs.foldl (stageStep force) st

/-! ## Cleanup engine: `_normalize_header`, `_detect_recurring_headers`,
`_rejoin_fragments` -/

/-- Try to match the regex `Page:\s*\d+\s*/\s*\d+` at the head of the
char list; on success return the remainder after the match.  `\d+` is
greedy, so the digit runs are maximal. -/
def matchPageNum (cs : List Char) : Option (List Char) :=
  match cs with
  | 'P' :: 'a' :: 'g' :: 'e' :: ':' :: rest =>
    let r1 := rest.dropWhile Char.isWhitespace
    if (r1.takeWhile Char.isDigit).isEmpty then none
    else
      let r2 := (r1.dropWhile Char.isDigit).dropWhile Char.isWhitespace
      match r2 with
      | '/' :: r3 =>
        let r4 := r3.dropWhile Char.isWhitespace
        if (r4.takeWhile Char.isDigit).isEmpty then none
        else some (r4.dropWhile Char.isDigit)
      | _ => none
  | _ => none

/-- Source `_PAGE_NUM_RE.sub("Page: #/#", ·)`: left-to-right scan replacing each
non-overlapping match and continuing after the replaced stretch.  `fuel`
bounds the recursion (every step strictly shrinks the list, so any fuel
at least the list length is exact); it keeps the definition structural
and therefore kernel-evaluable. -/
def pageNumSubAux : ℕ → List Char → List Char
  | 0, cs => cs
  | _ + 1, [] => []
  | fuel + 1, c :: cs =>
    match matchPageNum (c :: cs) with
    | some rest => ("Page: #/#".data) ++ pageNumSubAux fuel rest
    | none => c :: pageNumSubAux fuel cs

/-- Source `_PAGE_NUM_RE.sub("Page: #/#", cs)`. -/
def pageNumSub (cs : List Char) : List Char :=
  pageNumSubAux cs.length cs

/-- Source `_normalize_header(line)`: strip, collapse `Page: X/Y` tokens to the
canonical placeholder, lowercase. -/
def _normalize_header (line : String) : String :=
  ⟨lowerStr (pageNumSub (stripWS line.data))⟩

/-- The distinct non-empty normalized lines of one page (the inner loop
of `_detect_recurring_headers` counts each normalized line at most once
per page via its `seen` set, and skips falsy i.e. empty norms). -/
def pageNormLines (lines : List String) : List String :=
  ((lines.map _normalize_header).filter (fun s => s ≠ "")).dedup

/-- On how many pages the normalized line `n` occurs — the counter value
`counts[n]` of `_detect_recurring_headers`. -/
def headerPageCount (pageLinesList : List (List String)) (n : String) : ℕ :=
  pageLinesList.countP (fun lines => decide (n ∈ pageNormLines lines))

/-- The recurring-header threshold
`max(3, len(page_lines_list) * HEADER_MIN_OCCURRENCE)` as an exact
rational (the Python value is a float, but `0.5 * n` is dyadic, so the
comparison semantics agree). -/
def headerThreshold (pageCount : ℕ) : ℚ :=
  max 3 ((pageCount : ℚ) * HEADER_MIN_OCCURRENCE)

/-- Source `_detect_recurring_headers(page_lines_list)`: the set of normalized
lines whose distinct-page count meets the threshold (returned as a
duplicate-free list). -/
def _detect_recurring_headers (pageLinesList : List (List String)) : List String :=
  ((pageLinesList.map pageNormLines).flatten.dedup).filter
    (fun n => decide (headerThreshold pageLinesList.length ≤ (headerPageCount pageLinesList n : ℚ)))

/-- The fragment test of `_rejoin_fragments`:
`len(line.split()) == 1 and len(line) < 30`. -/
def isFragmentLine (line : String) : Bool :=
  (splitWords line.data).length = 1 && line.length < 30

/-- Flushing the accumulated single-word run: join it to one line when it
reaches `MIN_FRAGMENT_RUN`, else emit it unchanged. -/
def flushRun (run : List String) : List String :=
  if MIN_FRAGMENT_RUN ≤ run.length then [String.intercalate " " run] else run

/-- The loop of `_rejoin_fragments`, with `run` the accumulated run of
consecutive fragment lines. -/
def rejoinAux : List String → List String → List String
  | run, [] => flushRun run
  | run, line :: rest =>
    if isFragmentLine line then rejoinAux (run ++ [line]) rest
    else flushRun run ++ line :: rejoinAux [] rest

/-- Source `_rejoin_fragments(lines)`. -/
def _rejoin_fragments (lines : List String) : List String :=
  rejoinAux [] lines

/-- The suffix returned by `dropWhile` is no longer than the input. -/
theorem dropWhileLenLe (p : α → Bool) (l : List α) :
    (l.dropWhile p).length ≤ l.length :=
  (List.dropWhile_suffix p).sublist.length_le

/-- Specification-side restatement of the fragment-rejoin pass, written
from the claim: each maximal run of consecutive single-word lines under
30 characters is replaced by one space-joined line exactly when the run
has length at least 4; shorter runs and all other lines are emitted
unchanged in order.  (`takeWhile` / `dropWhile` split off exactly the
maximal run at the head.) -/
def specRejoin : List String → List String
  | [] => []
  | l :: ls =>
    if isFragmentLine l then
      let run := l :: ls.takeWhile isFragmentLine
      let rest := ls.dropWhile isFragmentLine
      (if 4 ≤ run.length then [String.intercalate " " run] else run) ++ specRejoin rest
    else l :: specRejoin ls
  termination_by ls => ls.length
  decreasing_by
    · simpa using Nat.lt_succ_of_le (dropWhileLenLe _ _)
    · simp

/-! ## `_is_vector_diagram` (image classification, Phase 2 predicate) -/

/-- A `fitz.Rect` (page-space rectangle with rational coordinates). -/
structure DRect where
  x0 : ℚ
  y0 : ℚ
  x1 : ℚ
  y1 : ℚ
deriving DecidableEq, Repr

/-- Source `fitz.Rect.__or__`: smallest rectangle containing both. -/
def DRect.union (a b : DRect) : DRect :=
  ⟨min a.x0 b.x0, min a.y0 b.y0, max a.x1 b.x1, max a.y1 b.y1⟩

/-- Source `rect.width`. -/
def DRect.width (r : DRect) : ℚ := r.x1 - r.x0

/-- Source `rect.height`. -/
def DRect.height (r : DRect) : ℚ := r.y1 - r.y0

/-- The data of one page that `_is_vector_diagram` observes: the `rect`
of each drawing primitive returned by `page.get_drawings()` (`none` for
a drawing whose `rect` entry is missing/falsy), the page dimensions, and
`len(page.get_text())`. -/
structure DiagPage where
  drawings : List (Option DRect)
  pageWidth : ℚ
  pageHeight : ℚ
  textLen : ℕ
deriving DecidableEq, Repr

/-- The union bounding box of the drawing rects, when any exist
(`bbox = rects[0]; for r in rects[1:]: bbox = bbox | r`). -/
def drawingBBox (p : DiagPage) : Option DRect :=
  match p.drawings.filterMap id with
  | [] => none
  | r :: rs => some (rs.foldl DRect.union r)

/-- Source `bbox.width * bbox.height / page_area * 100` — the percentage of the
page area covered by the union drawing bbox (0 when there is no bbox). -/
def drawingCoveragePct (p : DiagPage) : ℚ :=
  match drawingBBox p with
  | none => 0
  | some b => b.width * b.height / (p.pageWidth * p.pageHeight) * 100

/-- Source `_is_vector_diagram(page)` transcribed check for check: at least
`MIN_DRAWINGS` primitives, a non-empty rect list, non-zero page area,
coverage at least `MIN_DRAWING_COVERAGE` percent, and page text not
exceeding `MAX_TEXT_FOR_DIAGRAM` characters (`if len > MAX: return
False`). -/
def _is_vector_diagram (p : DiagPage) : Bool :=
  if p.drawings.length < MIN_DRAWINGS then false
  else
    match p.drawings.filterMap id with
    | [] => false
    | r :: rs =>
      let bbox := rs.foldl DRect.union r
      let page_area := p.pageWidth * p.pageHeight
      if page_area = 0 then false
      else if bbox.width * bbox.height / page_area * 100 < MIN_DRAWING_COVERAGE then false
      else if MAX_TEXT_FOR_DIAGRAM < p.textLen then false
      else true

/-! ## Image phases 2 and 3 of `_extract_pdf` (lines 900-981)

Phase 1 (embedded rasters) is abstracted to its per-page outcome
`hadEmbedded` (whether the page produced at least one embedded image);
the renderer (`_safe_render_page`) is abstracted to one success flag per
call site, since a timed-out / failed render only logs a warning and
writes nothing.  `figure_pages` is the set of 1-based page numbers whose
extracted text contains `"figure"` (case-insensitively) or `"图"`;
`rendered_pages` collects the pages written by Phases 2 and 3. -/

/-- Per-page inputs of the Phase-2/3 loop. -/
structure ImgPage where
  /-- The `pages_content` text for this page. -/
  content : String
  /-- Phase 1 extracted at least one embedded raster on this page. -/
  hadEmbedded : Bool
  /-- Source `_is_vector_diagram` holds for this page. -/
  isVector : Bool
  /-- The Phase-2 `_safe_render_page` call would succeed. -/
  renderOk2 : Bool
  /-- The Phase-3 `_safe_render_page` call would succeed. -/
  renderOk3 : Bool
deriving DecidableEq, Repr

/-- Membership of a page in `figure_pages`:
`"figure" in content.lower() or "图" in content`. -/
def hasFigureKeyword (s : String) : Bool :=
  containsSub ("figure".data) (lowerStr s.data) || containsSub ("图".data) s.data

/-- The image files the Phase-2/3 loop writes, identified by kind and
1-based page number. -/
inductive ImgEvent
  | vectorRender (page : ℕ)
  | figurePage (page : ℕ)
deriving DecidableEq, Repr

/-- One iteration of the page loop for page number `num`: Phase 2 renders
the page as a vector diagram when Phase 1 produced nothing, the predicate
holds and the render succeeds; Phase 3 then renders it as a figure page
when its text has a caption keyword, it is not in `rendered_pages`, and
the render succeeds.  Returns the updated `rendered_pages` and the files
written by this iteration. -/
def phase23Step (p : ImgPage) (num : ℕ) (rendered : List ℕ) : List ℕ × List ImgEvent :=
  let afterP2 :=
    if !p.hadEmbedded && p.isVector && p.renderOk2 then
      (num :: rendered, [ImgEvent.vectorRender num])
    else (rendered, ([] : List ImgEvent))
  if hasFigureKeyword p.content && !(afterP2.1.contains num) && p.renderOk3 then
    (num :: afterP2.1, afterP2.2 ++ [ImgEvent.figurePage num])
  else afterP2

/-- The page loop: pages are visited in order, page `i` (0-based index)
having 1-based number `i + 1`, threading `rendered_pages`. -/
def imagePhasesAux : ℕ → List ℕ → List ImgPage → List ImgEvent
  | _, _, [] => []
  | i, rendered, p :: rest =>
    (phase23Step p (i + 1) rendered).2 ++
      imagePhasesAux (i + 1) (phase23Step p (i + 1) rendered).1 rest

/-- All image files written by Phases 2 and 3 for the document. -/
def imagePhases (pages : List ImgPage) : List ImgEvent :=
  imagePhasesAux 0 [] pages

/-- The condition under which page `p` gets a Phase-3 figure render:
caption keyword present, page not already rendered by Phase 2, and the
Phase-3 render succeeds. -/
def figureRenderCond (p : ImgPage) : Bool :=
  hasFigureKeyword p.content && !(!p.hadEmbedded && p.isVector && p.renderOk2) && p.renderOk3

/-! ## Per-page rotation fallback of the standard path (lines 867-883) -/

/-- The rotation fallback applied to one page after standard extraction:
when the page has non-zero rotation metadata and the accumulated
pdfplumber output (`"\n".join(page_content).strip()`) is below
`MIN_TEXT_LENGTH_FOR_VALID_PAGE`, the page is re-extracted with the
rotation-aware PyMuPDF extractor (`fitzRaw`), and that result replaces
the page content only when its stripped form reaches the threshold. -/
def rotationFallback (rotated : Bool) (pageContent : List String) (fitzRaw : String) : List String :=
  if rotated then
    let plumberOut := strippedLen (String.intercalate "\n" pageContent)
    if plumberOut < MIN_TEXT_LENGTH_FOR_VALID_PAGE then
      let fitzStripped := stripWS fitzRaw.data
      if MIN_TEXT_LENGTH_FOR_VALID_PAGE ≤ fitzStripped.length then
        [⟨fitzStripped⟩]
      else pageContent
    else pageContent
  else pageContent

/-! ## Image filenames: producers (`_extract_pdf` Phases 1-3) and the
ingestion-stage parser `_parse_image_filename` (lines 1199-1266)

Python renders the page number / index with `str(int)`; decimal
rendering and parsing are implemented here structurally (fuel-based, the
fuel argument is exact for any fuel at least the value). -/

/-- Decimal digits of `n` (most significant first), by repeated division;
`fuel` bounds the recursion and is exact whenever `n ≤ fuel`. -/
def natToStrAux : ℕ → ℕ → List Char
  | 0, _ => []
  | fuel + 1, n =>
    if n = 0 then []
    else natToStrAux fuel (n / 10) ++ [Nat.digitChar (n % 10)]

/-- Python `str(n)` for a natural number. -/
def natToStr (n : ℕ) : List Char :=
  if n = 0 then ['0'] else natToStrAux n n

/-- Numeric value of a run of decimal digits (`int(...)` on the digits
a regex group captured). -/
def strToNat (cs : List Char) : ℕ :=
  cs.foldl (fun a c => 10 * a + (c.toNat - 48)) 0

/-- Source `_sanitize_label(label)`: strip; remove the filesystem-unsafe
characters; collapse each whitespace run to one underscore; strip
`'_', '.', '-'` from both edges; truncate to 40 characters and strip
`'_', '.', '-'` from the right edge again. -/
def fsUnsafe (c : Char) : Bool :=
  c = '/' || c = '\\' || c = ':' || c = '*' || c = '?' || c = '"' ||
  c = '<' || c = '>' || c = '|'

/-- The edge characters trimmed by `_sanitize_label` (`strip('_.-')`). -/
def labelEdge (c : Char) : Bool := c = '_' || c = '.' || c = '-'

/-- Collapse each maximal whitespace run to a single `'_'`
(`re.sub(r'[\s]+', '_', label)`); the flag records whether the previous
character was part of a whitespace run whose `'_'` was already
emitted. -/
def collapseWSAux : List Char → Bool → List Char
  | [], _ => []
  | c :: cs, inWS =>
    if c.isWhitespace then
      if inWS then collapseWSAux cs true else '_' :: collapseWSAux cs true
    else c :: collapseWSAux cs false

/-- Source `re.sub(r'[\s]+', '_', label)`. -/
def collapseWS (cs : List Char) : List Char := collapseWSAux cs false

/-- Source `_sanitize_label` on a char list. -/
def _sanitize_label (label : List Char) : List Char :=
  if label.isEmpty then []
  else
    let s1 := stripWS label
    let s2 := s1.filter (fun c => !fsUnsafe c)
    let s3 := collapseWS s2
    let s4 := stripChars labelEdge s3
    ((s4.take 40).reverse.dropWhile labelEdge).reverse

/-- Phase-1 filename: `diagram_p{page}_{idx}_{label}.{ext}` when a label
was found, else `diagram_p{page}_{idx}.{ext}`. -/
def embeddedFname (page idx : ℕ) (label ext : List Char) : List Char :=
  if label.isEmpty then
    ("diagram_p".data) ++ natToStr page ++ ['_'] ++ natToStr idx ++ '.' :: ext
  else
    ("diagram_p".data) ++ natToStr page ++ ['_'] ++ natToStr idx ++ '_' :: label ++ '.' :: ext

/-- Phase-2 filename: `page_{page}_{label}_highres.png` when a label was
found, else `page_{page}_highres.png`. -/
def renderedFname (page : ℕ) (label : List Char) : List Char :=
  if label.isEmpty then ("page_".data) ++ natToStr page ++ ("_highres.png".data)
  else ("page_".data) ++ natToStr page ++ '_' :: label ++ ("_highres.png".data)

/-- Phase-3 filename: `figure_p{page}_{label}.png` when a label was
found, else `figure_p{page}.png`. -/
def figureFname (page : ℕ) (label : List Char) : List Char :=
  if label.isEmpty then ("figure_p".data) ++ natToStr page ++ (".png".data)
  else ("figure_p".data) ++ natToStr page ++ '_' :: label ++ (".png".data)

/-- The origin tag returned by `_parse_image_filename`. -/
inductive ImgKind
  | embedded
  | vector_render
  | figure_page
deriving DecidableEq, Repr

/-- Expect the literal `lit` at the head of `s`; return the remainder. -/
def dropLit : List Char → List Char → Option (List Char)
  | [], s => some s
  | _ :: _, [] => none
  | c :: cs, d :: ds => if c = d then dropLit cs ds else none

/-- Read the greedy `(\d+)` group: the maximal leading run of decimal
digits, failing when it is empty. -/
def readNat (s : List Char) : Option (ℕ × List Char) :=
  if (s.takeWhile Char.isDigit).isEmpty then none
  else some (strToNat (s.takeWhile Char.isDigit), s.dropWhile Char.isDigit)

/-- Source `_IMG_EMBEDDED_RE`, `^diagram_p(\d+)_\d+(?:_([^.]+))?\.`: after the
literal prefix, page digits, `'_'`, the index digits, either the closing
dot (no label) or `'_'` followed by the greedy non-empty dot-free label
group and a dot. -/
def parseEmbedded (s : List Char) : Option (ℕ × ImgKind × List Char) :=
  match dropLit ("diagram_p".data) s with
  | none => none
  | some r0 =>
    match readNat r0 with
    | none => none
    | some (page, r1) =>
      match r1 with
      | '_' :: r2 =>
        match readNat r2 with
        | none => none
        | some (_, r3) =>
          match r3 with
          | '.' :: _ => some (page, ImgKind.embedded, [])
          | '_' :: r4 =>
            let lbl := r4.takeWhile (fun c => c ≠ '.')
            if lbl.isEmpty then none
            else
              match r4.dropWhile (fun c => c ≠ '.') with
              | '.' :: _ => some (page, ImgKind.embedded, lbl)
              | _ => none
          | _ => none
      | _ => none

/-- Split `s` at the LAST occurrence of `"_highres."`, returning the part
before it and the part after it — the backtracking behaviour of the
greedy `(?:_(.+))?_highres\.` of `_IMG_RENDERED_RE` (a later occurrence
is always preferred because `.+` is greedy). -/
def splitLastHighres : List Char → Option (List Char × List Char)
  | [] => none
  | c :: cs =>
    match splitLastHighres cs with
    | some (pre, post) => some (c :: pre, post)
    | none =>
      if ("_highres.".data).isPrefixOf (c :: cs) then some ([], (c :: cs).drop 9)
      else none

/-- Source `_IMG_RENDERED_RE`, `^page_(\d+)(?:_(.+))?_highres\.`: after the
literal prefix and the page digits, either `"_highres."` follows
directly (no label) or an underscore and the greedy non-empty label
group, which extends to the last occurrence of `"_highres."`. -/
def parseRendered (s : List Char) : Option (ℕ × ImgKind × List Char) :=
  match dropLit ("page_".data) s with
  | none => none
  | some r0 =>
    match readNat r0 with
    | none => none
    | some (page, r1) =>
      match splitLastHighres r1 with
      | none => none
      | some ([], _) => some (page, ImgKind.vector_render, [])
      | some ('_' :: lbl, _) =>
        if lbl.isEmpty then none else some (page, ImgKind.vector_render, lbl)
      | some (_ :: _, _) => none

/-- Source `_IMG_FIGURE_RE`, `^figure_p(\d+)(?:_([^.]+))?\.`: like the embedded
pattern without the index group. -/
def parseFigure (s : List Char) : Option (ℕ × ImgKind × List Char) :=
  match dropLit ("figure_p".data) s with
  | none => none
  | some r0 =>
    match readNat r0 with
    | none => none
    | some (page, r1) =>
      match r1 with
      | '.' :: _ => some (page, ImgKind.figure_page, [])
      | '_' :: r2 =>
        let lbl := r2.takeWhile (fun c => c ≠ '.')
        if lbl.isEmpty then none
        else
          match r2.dropWhile (fun c => c ≠ '.') with
          | '.' :: _ => some (page, ImgKind.figure_page, lbl)
          | _ => none
      | _ => none

/-- Source `_parse_image_filename(fname)`: try the three patterns in source
order; `none` models the `(None, None, None)` result. -/
def _parse_image_filename (s : List Char) : Option (ℕ × ImgKind × List Char) :=
  match parseEmbedded s with
  | some r => some r
  | none =>
    match parseRendered s with
    | some r => some r
    | none => parseFigure s

/-! ## Concrete sample inputs used by the theorems below -/

/-- A page text of the garbled shape the detector targets: one CJK
character plus a long uppercase run (52 characters in total). -/
def garbledSample : String :=
  "图 ABCDEFGHIJKLMNOPQRSTUVWXYZABCDEFGHIJ xxxx yyyy zzzz"

/-- An ordinary readable page text of comparable length. -/
def cleanSample : String :=
  "the pump was started and the water level rose in tank"

/-- A synthetic 10-page document whose line `"ACME Corp"` occurs on
exactly 5 pages. -/
def tenPageDoc5 : List (List String) :=
  [["ACME Corp", "alpha"], ["ACME Corp", "beta"], ["ACME Corp", "gamma"],
   ["ACME Corp", "delta"], ["ACME Corp", "epsilon"], ["zeta"], ["eta"],
   ["theta"], ["iota"], ["kappa"]]

/-- The same 10-page document with `"ACME Corp"` on exactly 4 pages. -/
def tenPageDoc4 : List (List String) :=
  [["ACME Corp", "alpha"], ["ACME Corp", "beta"], ["ACME Corp", "gamma"],
   ["ACME Corp", "delta"], ["epsilon"], ["zeta"], ["eta"],
   ["theta"], ["iota"], ["kappa"]]

/-! ## Theorems -/

/-- Looking up the key just upserted returns the new entry. -/
theorem lookup_upsert (led : Ledger) (k : String) (e : LedgerEntry) :
    lookupEntry (upsertEntry led k e) k = some e := by
  simp [lookupEntry, upsertEntry, List.lookup]

/-- C2: a file whose Ledger entry for the stage already reads `done` is
skipped entirely when the force flag is off: the per-file loop body
leaves the whole observable state — status map, written artifacts and
on-disk status snapshots — unchanged (so re-running the stage performs
zero additional writes), and the loop simply advances past the file. -/
theorem c2_done_skip (st : StageState) (j : FileJob)
    (hd : entryDone st.ledger j.key = true) :
    stageStep false st j = st ∧
    (∀ rest : List FileJob,
      runStage false st (j :: rest) = runStage false st rest) := by
  have hstep : stageStep false st j = st := by
    simp [stageStep, hd]
  exact ⟨hstep, fun rest => by simp [runStage, List.foldl_cons, hstep]⟩

/-- Witness for `c2_done_skip` at a concrete already-`done` file. -/
theorem c2_done_skip_witness :
    stageStep false
      ⟨[("pdfs/a.pdf", ⟨"done", "out/a", "t0"⟩)], [], []⟩
      ⟨"pdfs/a.pdf", FileOutcome.ok "out/a2", "t1"⟩ =
      ⟨[("pdfs/a.pdf", ⟨"done", "out/a", "t0"⟩)], [], []⟩ :=
  (c2_done_skip ⟨[("pdfs/a.pdf", ⟨"done", "out/a", "t0"⟩)], [], []⟩
    ⟨"pdfs/a.pdf", FileOutcome.ok "out/a2", "t1"⟩ (by decide)).1

/-- C9: an exception escaping the per-document processing of one file is
caught at the per-file loop boundary: the document's Ledger entry is set
to `status = "error"` with the exception text and the loop timestamp, no
output artifact is recorded, the updated status map is flushed to disk,
and the run continues with the remaining files. -/
theorem c9_error_recorded (force : Bool) (st : StageState)
    (key msg time : String) (rest : List FileJob)
    (h : ¬(force = false ∧ entryDone st.ledger key = true)) :
    lookupEntry (stageStep force st ⟨key, FileOutcome.exc msg, time⟩).ledger key =
      some ⟨"error", msg, time⟩ ∧
    (stageStep force st ⟨key, FileOutcome.exc msg, time⟩).writes = st.writes ∧
    (stageStep force st ⟨key, FileOutcome.exc msg, time⟩).flushes =
      st.flushes ++ [(stageStep force st ⟨key, FileOutcome.exc msg, time⟩).ledger] ∧
    runStage force st (⟨key, FileOutcome.exc msg, time⟩ :: rest) =
      runStage force (stageStep force st ⟨key, FileOutcome.exc msg, time⟩) rest := by
  have hcond : (!force && entryDone st.ledger key) = false := by
    cases force with
    | true => simp
    | false =>
      simp only [Bool.not_false, Bool.true_and]
      by_contra hc
      exact h ⟨rfl, by simpa using hc⟩
  refine ⟨?_, ?_, ?_, ?_⟩
  · simp [stageStep, hcond, lookup_upsert]
  · simp [stageStep, hcond]
  · simp [stageStep, hcond]
  · simp [runStage, List.foldl_cons]

/-- Witness for `c9_error_recorded` at a concrete failing file. -/
theorem c9_error_recorded_witness :
    lookupEntry (stageStep false ⟨[], [], []⟩
      ⟨"pdfs/b.pdf", FileOutcome.exc "boom", "t2"⟩).ledger "pdfs/b.pdf" =
      some ⟨"error", "boom", "t2"⟩ :=
  (c9_error_recorded false ⟨[], [], []⟩ "pdfs/b.pdf" "boom" "t2" []
    (by simp [entryDone, lookupEntry])).1

/-- C7: the per-page rotation fallback.  A page without rotation metadata
keeps the standard result; a rotated page whose standard output reaches
the minimum-valid-page-length threshold keeps the standard result; a
rotated page below the threshold is re-extracted with the rotation-aware
extractor, whose result replaces the standard one exactly when it
reaches the threshold — and in that case it is strictly longer than the
standard output, so replacement only happens when the rotation-aware
extractor yields more text. -/
theorem c7_rotation_fallback :
    (∀ (pc : List String) (f : String), rotationFallback false pc f = pc) ∧
    (∀ (pc : List String) (f : String),
      MIN_TEXT_LENGTH_FOR_VALID_PAGE ≤ strippedLen (String.intercalate "\n" pc) →
      rotationFallback true pc f = pc) ∧
    (∀ (pc : List String) (f : String),
      strippedLen (String.intercalate "\n" pc) < MIN_TEXT_LENGTH_FOR_VALID_PAGE →
      MIN_TEXT_LENGTH_FOR_VALID_PAGE ≤ (stripWS f.data).length →
      rotationFallback true pc f = [⟨stripWS f.data⟩] ∧
      strippedLen (String.intercalate "\n" pc) < (stripWS f.data).length) ∧
    (∀ (pc : List String) (f : String),
      strippedLen (String.intercalate "\n" pc) < MIN_TEXT_LENGTH_FOR_VALID_PAGE →
      (stripWS f.data).length < MIN_TEXT_LENGTH_FOR_VALID_PAGE →
      rotationFallback true pc f = pc) := by
  refine ⟨?_, ?_, ?_, ?_⟩
  · intro pc f; simp [rotationFallback]
  · intro pc f h; simp [rotationFallback, Nat.not_lt.mpr h]
  · intro pc f h1 h2
    constructor
    · simp [rotationFallback, h1, h2]
    · exact lt_of_lt_of_le h1 h2
  · intro pc f h1 h2
    simp [rotationFallback, h1, Nat.not_le.mpr h2]

/-- Witness for `c7_rotation_fallback`: a rotated page whose standard
output is empty and whose rotation-aware output is long enough. -/
theorem c7_rotation_fallback_witness :
    rotationFallback true ["short"]
      "this rotation aware extraction result has plenty of characters" =
      ["this rotation aware extraction result has plenty of characters"] := by
  have h := (c7_rotation_fallback.2.2.1 ["short"]
    "this rotation aware extraction result has plenty of characters"
    (by decide) (by decide)).1
  simpa using h

/-- Taking `min n (length l)` elements is the same as taking `n`. -/
theorem take_min_eq (n : ℕ) (l : List α) : l.take (min n l.length) = l.take n := by
  rcases le_total l.length n with h | h
  · rw [Nat.min_eq_right h, List.take_length, List.take_of_length_le h]
  · rw [Nat.min_eq_left h]

/-- The precheck sample is the first three pages (all pages when the
document has fewer). -/
theorem precheckSample_eq_take3 (pages : List PrePage) :
    precheckSample pages = pages.take 3 :=
  take_min_eq 3 pages

/-- C1: for a document with no per-filename OCR override, the strategy is
chosen by the precheck over the first `min(3, total_pages)` pages; a
sampled page is classified EMPTY exactly when its (stripped) extracted
text has fewer than the fixed 50-character threshold, and the full-OCR
strategy is selected iff every sampled page is EMPTY — otherwise the
standard strategy is selected. -/
theorem c1_precheck_strategy (pages : List PrePage) :
    precheckSample pages = pages.take (min 3 pages.length) ∧
    (∀ s : String, pageEmpty s = true ↔ strippedLen s < 50) ∧
    (strategyFor OcrOverride.noOverride pages = ExtStrategy.ocr_full ↔
      ∀ p ∈ precheckSample pages, pageEmpty (effText p) = true) ∧
    (strategyFor OcrOverride.noOverride pages = ExtStrategy.ocr_full ∨
      strategyFor OcrOverride.noOverride pages = ExtStrategy.standard) := by
  have hlen : (precheckSample pages).length = min 3 pages.length := by
    rw [precheckSample, List.length_take]
    omega
  have hkey : precheckEmptyCount pages = min 3 pages.length ↔
      ∀ p ∈ precheckSample pages, pageEmpty (effText p) = true := by
    rw [precheckEmptyCount, ← hlen]
    exact List.countP_eq_length
  refine ⟨rfl, ?_, ?_, ?_⟩
  · intro s
    simp [pageEmpty, MIN_TEXT_LENGTH_FOR_VALID_PAGE]
  · rw [strategyFor, chooseStrategy]
    by_cases h : precheckEmptyCount pages = min 3 pages.length
    · rw [if_pos h]
      exact iff_of_true rfl (hkey.mp h)
    · rw [if_neg h]
      exact iff_of_false (by simp) (fun hall => h (hkey.mpr hall))
  · rw [strategyFor, chooseStrategy]
    by_cases h : precheckEmptyCount pages = min 3 pages.length
    · exact Or.inl (by rw [if_pos h])
    · exact Or.inr (by rw [if_neg h])

/-- Witness for `c1_precheck_strategy`: a 3-page scan (all sampled pages
empty) is routed to full OCR via the theorem's iff. -/
theorem c1_precheck_strategy_witness :
    strategyFor OcrOverride.noOverride
      [⟨"", false, ""⟩, ⟨"x", false, ""⟩, ⟨"yy", false, ""⟩, ⟨"", false, ""⟩] =
      ExtStrategy.ocr_full :=
  (c1_precheck_strategy
    [⟨"", false, ""⟩, ⟨"x", false, ""⟩, ⟨"yy", false, ""⟩, ⟨"", false, ""⟩]).2.2.1.mpr
    (by decide)

/-- C10: the standard-vs-OCR decision is independent of the garbled-text
detector.  Any two override-free documents of the same length whose
sampled precheck pages have identical EMPTY classification receive the
same strategy — in particular, two one-page documents whose texts differ
in whether `_is_garbled_text` flags them (shown on concrete samples that
the detector respectively accepts and rejects) are routed identically. -/
theorem c10_garbled_independence :
    (∀ d1 d2 : List PrePage, d1.length = d2.length →
      (d1.take 3).map (fun p => pageEmpty (effText p)) =
        (d2.take 3).map (fun p => pageEmpty (effText p)) →
      strategyFor OcrOverride.noOverride d1 = strategyFor OcrOverride.noOverride d2) ∧
    _is_garbled_text garbledSample = true ∧
    _is_garbled_text cleanSample = false ∧
    pageEmpty garbledSample = pageEmpty cleanSample ∧
    strategyFor OcrOverride.noOverride [⟨garbledSample, false, ""⟩] =
      strategyFor OcrOverride.noOverride [⟨cleanSample, false, ""⟩] := by
  refine ⟨?_, by decide, by decide, by decide, by decide⟩
  intro d1 d2 hlen hmap
  have hcount : precheckEmptyCount d1 = precheckEmptyCount d2 := by
    have h1 : precheckEmptyCount d1 =
        ((d1.take 3).map (fun p => pageEmpty (effText p))).countP (fun b => b) := by
      rw [precheckEmptyCount, precheckSample_eq_take3, List.countP_map]
      rfl
    have h2 : precheckEmptyCount d2 =
        ((d2.take 3).map (fun p => pageEmpty (effText p))).countP (fun b => b) := by
      rw [precheckEmptyCount, precheckSample_eq_take3, List.countP_map]
      rfl
    rw [h1, h2, hmap]
  simp [strategyFor, chooseStrategy, hcount, hlen]

/-- Witness for `c10_garbled_independence`: its universally quantified
part applied to the two concrete one-page documents whose emptiness
classification agrees while the garbled flags differ. -/
theorem c10_garbled_independence_witness :
    strategyFor OcrOverride.noOverride [⟨garbledSample, false, ""⟩] =
      strategyFor OcrOverride.noOverride [⟨cleanSample, false, ""⟩] :=
  c10_garbled_independence.1 [⟨garbledSample, false, ""⟩] [⟨cleanSample, false, ""⟩]
    rfl (by decide)

/-- Folding the rectangle union over copies of the same rectangle is the
identity. -/
theorem foldl_union_replicate (n : ℕ) (r : DRect) :
    (List.replicate n r).foldl DRect.union r = r := by
  induction n with
  | zero => rfl
  | succ n ih =>
    rw [List.replicate_succ, List.foldl_cons]
    have hrr : DRect.union r r = r := by
      simp [DRect.union]
    rw [hrr, ih]

/-- C5 counterexample: the claim requires page text length strictly below
the 300-character cutoff, but the code rejects a page only when its text
length EXCEEDS the cutoff (`if len > MAX_TEXT_FOR_DIAGRAM: return
False`).  A page with 150 full-page drawing primitives and exactly 300
characters of text is classified as a vector diagram, although its text
length is not below 300. -/
theorem c5_vector_diagram_counterexample :
    _is_vector_diagram ⟨List.replicate 150 (some ⟨0, 0, 100, 100⟩), 100, 100, 300⟩ = true ∧
    ¬((300 : ℕ) < MAX_TEXT_FOR_DIAGRAM) := by
  constructor
  · rw [_is_vector_diagram]
    have hfm : (List.replicate 150 (some (⟨0, 0, 100, 100⟩ : DRect))).filterMap id =
        List.replicate 150 (⟨0, 0, 100, 100⟩ : DRect) := by
      simp
    rw [hfm, List.replicate_succ]
    norm_num [MIN_DRAWINGS, MIN_DRAWING_COVERAGE, MAX_TEXT_FOR_DIAGRAM,
      foldl_union_replicate, DRect.width, DRect.height]
    rw [List.replicate_succ]
    norm_num [foldl_union_replicate]
  · decide

/-- C5 (amended): for a page with a positive page area and at least one
drawing rect, the vector-diagram predicate holds iff the drawing count
reaches `MIN_DRAWINGS`, the union bounding box covers at least
`MIN_DRAWING_COVERAGE` percent of the page area, and the page text
length is AT MOST (not strictly below) `MAX_TEXT_FOR_DIAGRAM`. -/
theorem c5_vector_diagram_amended (p : DiagPage) (r0 : DRect) (rs : List DRect)
    (hr : p.drawings.filterMap id = r0 :: rs)
    (hw : 0 < p.pageWidth) (hh : 0 < p.pageHeight) :
    _is_vector_diagram p = true ↔
      (MIN_DRAWINGS ≤ p.drawings.length ∧
       MIN_DRAWING_COVERAGE ≤ drawingCoveragePct p ∧
       p.textLen ≤ MAX_TEXT_FOR_DIAGRAM) := by
  have harea : ¬(p.pageWidth * p.pageHeight = 0) :=
    mul_ne_zero (ne_of_gt hw) (ne_of_gt hh)
  have hbody : _is_vector_diagram p =
      (if p.drawings.length < MIN_DRAWINGS then false
       else if p.pageWidth * p.pageHeight = 0 then false
       else if (rs.foldl DRect.union r0).width * (rs.foldl DRect.union r0).height /
           (p.pageWidth * p.pageHeight) * 100 < MIN_DRAWING_COVERAGE then false
       else if MAX_TEXT_FOR_DIAGRAM < p.textLen then false
       else true) := by
    rw [_is_vector_diagram, hr]
  have hcov : drawingCoveragePct p =
      (rs.foldl DRect.union r0).width * (rs.foldl DRect.union r0).height /
        (p.pageWidth * p.pageHeight) * 100 := by
    rw [drawingCoveragePct, drawingBBox, hr]
  rw [hbody, hcov]
  by_cases h1 : p.drawings.length < MIN_DRAWINGS
  · rw [if_pos h1]
    exact iff_of_false (by simp) (fun h => absurd h.1 (Nat.not_le.mpr h1))
  · rw [if_neg h1, if_neg harea]
    by_cases h2 : (rs.foldl DRect.union r0).width * (rs.foldl DRect.union r0).height /
        (p.pageWidth * p.pageHeight) * 100 < MIN_DRAWING_COVERAGE
    · rw [if_pos h2]
      exact iff_of_false (by simp) (fun h => absurd h.2.1 (not_le.mpr h2))
    · rw [if_neg h2]
      by_cases h3 : MAX_TEXT_FOR_DIAGRAM < p.textLen
      · rw [if_pos h3]
        exact iff_of_false (by simp) (fun h => absurd h.2.2 (Nat.not_le.mpr h3))
      · rw [if_neg h3]
        exact iff_of_true rfl ⟨Nat.not_lt.mp h1, not_lt.mp h2, Nat.not_lt.mp h3⟩

/-- Witness for `c5_vector_diagram_amended`: the spec's example page (150
primitives, 40% coverage, 100 characters) qualifies; the identical
geometry with 1000 characters does not. -/
theorem c5_vector_diagram_amended_witness :
    _is_vector_diagram ⟨List.replicate 150 (some ⟨0, 0, 80, 50⟩), 100, 100, 100⟩ = true ∧
    _is_vector_diagram ⟨List.replicate 150 (some ⟨0, 0, 80, 50⟩), 100, 100, 1000⟩ = false := by
  have hfm : (List.replicate 150 (some (⟨0, 0, 80, 50⟩ : DRect))).filterMap id =
      (⟨0, 0, 80, 50⟩ : DRect) :: List.replicate 149 (⟨0, 0, 80, 50⟩ : DRect) := by
    simp [List.replicate_succ]
  have hcov : ∀ t : ℕ, drawingCoveragePct
      ⟨List.replicate 150 (some ⟨0, 0, 80, 50⟩), 100, 100, t⟩ = 40 := by
    intro t
    rw [drawingCoveragePct, drawingBBox]
    rw [show ((⟨List.replicate 150 (some ⟨0, 0, 80, 50⟩), 100, 100, t⟩ :
        DiagPage)).drawings = List.replicate 150 (some ⟨0, 0, 80, 50⟩) from rfl]
    rw [hfm]
    norm_num [foldl_union_replicate, DRect.width, DRect.height]
  constructor
  · exact (c5_vector_diagram_amended _ _ _ hfm (by norm_num) (by norm_num)).mpr
      ⟨by simp [MIN_DRAWINGS], by rw [hcov]; norm_num [MIN_DRAWING_COVERAGE],
       by norm_num [MAX_TEXT_FOR_DIAGRAM]⟩
  · have h := c5_vector_diagram_amended
      ⟨List.replicate 150 (some ⟨0, 0, 80, 50⟩), 100, 100, 1000⟩ _ _ hfm
      (by norm_num) (by norm_num)
    rw [Bool.eq_false_iff]
    intro hc
    have h2 := h.mp hc
    have := h2.2.2
    norm_num [MAX_TEXT_FOR_DIAGRAM] at this

/-- C3: a normalized line is classified as a recurring header iff the
number of distinct pages it occurs on reaches
`max(3, page_count * 0.5)`; in the synthetic 10-page document, a line on
exactly 5 pages is a header while the same line on 4 pages is not. -/
theorem c3_header_threshold :
    (∀ (pages : List (List String)) (n : String),
      n ∈ _detect_recurring_headers pages ↔
        headerThreshold pages.length ≤ (headerPageCount pages n : ℚ)) ∧
    "acme corp" ∈ _detect_recurring_headers tenPageDoc5 ∧
    "acme corp" ∉ _detect_recurring_headers tenPageDoc4 := by
  have hgen : ∀ (pages : List (List String)) (n : String),
      n ∈ _detect_recurring_headers pages ↔
        headerThreshold pages.length ≤ (headerPageCount pages n : ℚ) := by
    intro pages n
    rw [_detect_recurring_headers, List.mem_filter]
    constructor
    · rintro ⟨-, hdec⟩
      exact of_decide_eq_true hdec
    · intro hle
      refine ⟨?_, decide_eq_true hle⟩
      have h3 : (3 : ℚ) ≤ (headerPageCount pages n : ℚ) :=
        le_trans (le_max_left _ _) hle
      have h1n : 0 < headerPageCount pages n := by
        rcases Nat.eq_zero_or_pos (headerPageCount pages n) with h0 | hpos
        · rw [h0] at h3
          norm_num at h3
        · exact hpos
      obtain ⟨lines, hmem, hp⟩ := List.countP_pos_iff.mp h1n
      rw [List.mem_dedup, List.mem_flatten]
      exact ⟨pageNormLines lines, List.mem_map.mpr ⟨lines, hmem, rfl⟩,
        of_decide_eq_true hp⟩
  refine ⟨hgen, ?_, ?_⟩
  · refine (hgen tenPageDoc5 "acme corp").mpr ?_
    have hc : headerPageCount tenPageDoc5 "acme corp" = 5 := by decide
    rw [hc]
    norm_num [headerThreshold, HEADER_MIN_OCCURRENCE, tenPageDoc5]
  · intro hmem
    have hle := (hgen tenPageDoc4 "acme corp").mp hmem
    have hc : headerPageCount tenPageDoc4 "acme corp" = 4 := by decide
    rw [hc] at hle
    norm_num [headerThreshold, HEADER_MIN_OCCURRENCE, tenPageDoc4] at hle

/-- The head of a non-empty `dropWhile` result fails the predicate. -/
theorem dropWhile_head_false (p : α → Bool) :
    ∀ (l : List α) (h : α) (t : List α), l.dropWhile p = h :: t → p h = false := by
  intro l
  induction l with
  | nil => intro h t hc; simp [List.dropWhile] at hc
  | cons c cs ih =>
    intro h t hc
    rw [List.dropWhile_cons] at hc
    by_cases hpc : p c
    · rw [if_pos hpc] at hc
      exact ih h t hc
    · rw [if_neg hpc] at hc
      obtain ⟨rfl, -⟩ := List.cons.inj hc
      exact Bool.of_not_eq_true hpc

/-- Splitting the rejoin loop: with pending run `run`, the loop flushes
`run` extended by the maximal fragment run at the head of the input, and
then continues after the first non-fragment line. -/
theorem rejoinAux_split :
    ∀ (ls run : List String),
      rejoinAux run ls =
        flushRun (run ++ ls.takeWhile isFragmentLine) ++
          (match ls.dropWhile isFragmentLine with
           | [] => []
           | l :: rest => l :: rejoinAux [] rest) := by
  intro ls
  induction ls with
  | nil => intro run; simp [rejoinAux]
  | cons l t ih =>
    intro run
    by_cases hf : isFragmentLine l
    · rw [rejoinAux, if_pos hf, ih (run ++ [l]),
        List.takeWhile_cons_of_pos hf, List.dropWhile_cons_of_pos hf]
      simp
    · rw [rejoinAux, if_neg hf,
        List.takeWhile_cons_of_neg hf, List.dropWhile_cons_of_neg hf]
      simp [ih []]

/-- The rejoin loop of the source computes exactly the maximal-run
specification. -/
theorem rejoin_eq_spec :
    ∀ (n : ℕ) (ls : List String), ls.length ≤ n → rejoinAux [] ls = specRejoin ls := by
  intro n
  induction n with
  | zero =>
    intro ls h
    have : ls = [] := List.eq_nil_of_length_eq_zero (Nat.le_zero.mp h)
    subst this
    simp [rejoinAux, flushRun, MIN_FRAGMENT_RUN, specRejoin]
  | succ n ih =>
    intro ls h
    match ls with
    | [] => simp [rejoinAux, flushRun, MIN_FRAGMENT_RUN, specRejoin]
    | l :: t =>
      by_cases hf : isFragmentLine l
      · rw [rejoinAux_split, specRejoin]
        rw [if_pos hf, List.takeWhile_cons_of_pos hf, List.dropWhile_cons_of_pos hf]
        have hflush : flushRun ([] ++ l :: t.takeWhile isFragmentLine) =
            (if 4 ≤ (l :: t.takeWhile isFragmentLine).length then
              [String.intercalate " " (l :: t.takeWhile isFragmentLine)]
            else l :: t.takeWhile isFragmentLine) := by
          simp [flushRun, MIN_FRAGMENT_RUN]
        rw [hflush]
        congr 1
        match hd : t.dropWhile isFragmentLine with
        | [] => simp [specRejoin]
        | l2 :: t2 =>
          have hl2 : isFragmentLine l2 = false := dropWhile_head_false _ t l2 t2 hd
          have ht2 : t2.length ≤ n := by
            have h1 : (l2 :: t2).length ≤ t.length := by
              rw [← hd]; exact dropWhileLenLe _ t
            simp only [List.length_cons] at h1 h
            omega
          rw [specRejoin, if_neg (by simp [hl2])]
          show l2 :: rejoinAux [] t2 = l2 :: specRejoin t2
          rw [ih t2 ht2]
      · rw [rejoinAux_split, specRejoin]
        rw [if_neg hf, List.takeWhile_cons_of_neg hf, List.dropWhile_cons_of_neg hf]
        have hflush : flushRun ([] ++ ([] : List String)) = [] := by
          simp [flushRun, MIN_FRAGMENT_RUN]
        rw [hflush]
        simp only [List.nil_append]
        congr 1
        have ht : t.length ≤ n := by
          simp only [List.length_cons] at h
          omega
        exact ih t ht

/-- C4: the fragment-rejoin pass equals the maximal-run specification —
each maximal run of consecutive single-word lines under 30 characters is
replaced by one space-joined line exactly when the run has length ≥ 4,
while shorter runs and all other lines are emitted unchanged in order;
concretely, 4 consecutive such lines are joined and 3 are not. -/
theorem c4_fragment_rejoin :
    (∀ lines : List String, _rejoin_fragments lines = specRejoin lines) ∧
    _rejoin_fragments ["alpha", "beta", "gamma", "delta"] =
      ["alpha beta gamma delta"] ∧
    _rejoin_fragments ["alpha", "beta", "gamma"] = ["alpha", "beta", "gamma"] := by
  refine ⟨?_, ?_, ?_⟩
  · intro lines
    exact rejoin_eq_spec lines.length lines (le_refl _)
  · decide
  · decide

/-- Events emitted by one loop iteration concern only that iteration's
page number. -/
theorem phase23Step_events (p : ImgPage) (num : ℕ) (r : List ℕ) :
    ∀ e ∈ (phase23Step p num r).2,
      e = ImgEvent.vectorRender num ∨ e = ImgEvent.figurePage num := by
  intro e he
  rw [phase23Step] at he
  split_ifs at he <;> simp_all

/-- The `rendered_pages` set after one iteration only grows by that
iteration's page number. -/
theorem phase23Step_rendered (p : ImgPage) (num : ℕ) (r : List ℕ) :
    ∀ m ∈ (phase23Step p num r).1, m = num ∨ m ∈ r := by
  intro m hm
  rw [phase23Step] at hm
  split_ifs at hm <;> simp_all

/-- Every figure-page event emitted from start index `i` concerns a page
number at least `i + 1`. -/
theorem imagePhasesAux_figure_ge :
    ∀ (pages : List ImgPage) (i : ℕ) (r : List ℕ) (k : ℕ),
      ImgEvent.figurePage k ∈ imagePhasesAux i r pages → i + 1 ≤ k := by
  intro pages
  induction pages with
  | nil => intro i r k hk; simp [imagePhasesAux] at hk
  | cons p rest ih =>
    intro i r k hk
    rw [imagePhasesAux, List.mem_append] at hk
    rcases hk with hk | hk
    · rcases phase23Step_events p (i + 1) r _ hk with h | h
      · exact absurd h (by simp)
      · obtain rfl : k = i + 1 := by
          injection h
        exact le_refl _
    · have := ih (i + 1) _ k hk
      omega

/-- Count of the figure event for the current page in one iteration's
output: exactly one when `figureRenderCond` holds, zero otherwise
(provided the page was not rendered before, which the loop order
guarantees). -/
theorem phase23Step_figure_count (p : ImgPage) (i : ℕ) (r : List ℕ)
    (hnm : (i + 1) ∉ r) :
    ((phase23Step p (i + 1) r).2).count (ImgEvent.figurePage (i + 1)) =
      if figureRenderCond p = true then 1 else 0 := by
  have hcont : r.contains (i + 1) = false := by simpa using hnm
  rw [phase23Step, figureRenderCond]
  by_cases hKey : hasFigureKeyword p.content <;>
    by_cases hEmb : p.hadEmbedded <;>
      by_cases hVec : p.isVector <;>
        by_cases hR2 : p.renderOk2 <;>
          by_cases hR3 : p.renderOk3 <;>
            simp [hKey, hEmb, hVec, hR2, hR3, hcont, hnm, List.count_cons]

/-- No event of one iteration mentions a later page number. -/
theorem phase23Step_figure_count_ne (p : ImgPage) (num k : ℕ) (r : List ℕ)
    (hne : k ≠ num) :
    ((phase23Step p num r).2).count (ImgEvent.figurePage k) = 0 := by
  rw [List.count_eq_zero]
  intro hmem
  rcases phase23Step_events p num r _ hmem with h | h
  · exact absurd h (by simp)
  · exact hne (by injection h)

/-- Main counting lemma for the Phase-2/3 loop: starting at index `i`
with only earlier pages recorded as rendered, the figure event of the
`j`-th remaining page appears exactly once iff `figureRenderCond` holds
for it. -/
theorem figure_count_aux :
    ∀ (pages : List ImgPage) (i : ℕ) (r : List ℕ),
      (∀ m ∈ r, m ≤ i) → ∀ (j : ℕ) (hj : j < pages.length),
      (imagePhasesAux i r pages).count (ImgEvent.figurePage (i + 1 + j)) =
        if figureRenderCond (pages.get ⟨j, hj⟩) = true then 1 else 0 := by
  intro pages
  induction pages with
  | nil => intro i r hr j hj; simp at hj
  | cons p rest ih =>
    intro i r hr j hj
    rw [imagePhasesAux, List.count_append]
    match j with
    | 0 =>
      have htail : (imagePhasesAux (i + 1) (phase23Step p (i + 1) r).1 rest).count
          (ImgEvent.figurePage (i + 1 + 0)) = 0 := by
        rw [List.count_eq_zero]
        intro hmem
        have := imagePhasesAux_figure_ge rest (i + 1) _ _ hmem
        omega
      have hnm : (i + 1) ∉ r := fun hc => absurd (hr _ hc) (by omega)
      rw [htail]
      have hhead := phase23Step_figure_count p i r hnm
      simpa using hhead
    | j + 1 =>
      have hhead : ((phase23Step p (i + 1) r).2).count
          (ImgEvent.figurePage (i + 1 + (j + 1))) = 0 :=
        phase23Step_figure_count_ne p (i + 1) _ r (by omega)
      rw [hhead]
      have hr2 : ∀ m ∈ (phase23Step p (i + 1) r).1, m ≤ i + 1 := by
        intro m hm
        rcases phase23Step_rendered p (i + 1) r m hm with h | h
        · omega
        · exact le_trans (hr m h) (by omega)
      have hidx : i + 1 + (j + 1) = (i + 1) + 1 + j := by omega
      rw [hidx]
      have := ih (i + 1) _ hr2 j (by simpa using Nat.lt_of_succ_lt_succ hj)
      simpa using this

/-- C6: in the image phases, page `j + 1` receives a Phase-3 fallback
figure render exactly once iff its extracted text contains a caption
keyword (`"figure"` case-insensitively or the CJK `"图"`), it was not
already rendered by the Phase-2 vector render, and the Phase-3 render
call succeeds; in particular a page rendered in Phase 2 is never
rendered a second time in Phase 3. -/
theorem c6_figure_page_fallback (pages : List ImgPage) (j : ℕ)
    (hj : j < pages.length) :
    (imagePhases pages).count (ImgEvent.figurePage (j + 1)) =
      if figureRenderCond (pages.get ⟨j, hj⟩) = true then 1 else 0 := by
  have h := figure_count_aux pages 0 [] (by simp) j hj
  rw [imagePhases]
  have hidx : (0 : ℕ) + 1 + j = j + 1 := by omega
  rw [hidx] at h
  exact h

/-- Witness for `c6_figure_page_fallback`: a two-page document where page
1 contains the keyword and is figure-rendered once, while page 2 is a
vector diagram rendered in Phase 2 and, despite containing the keyword,
is not figure-rendered. -/
theorem c6_figure_page_fallback_witness :
    (imagePhases
        [⟨"See Figure 1 for the assembly", false, false, true, true⟩,
         ⟨"Figure 2", false, true, true, true⟩]).count
      (ImgEvent.figurePage 1) = 1 := by
  have h := c6_figure_page_fallback
    [⟨"See Figure 1 for the assembly", false, false, true, true⟩,
     ⟨"Figure 2", false, true, true, true⟩] 0 (by decide)
  have hcond : figureRenderCond
      ⟨"See Figure 1 for the assembly", false, false, true, true⟩ = true := by decide
  simpa [hcond] using h

/-- A digit character for a value below ten. -/
theorem digitChar_isDigit (d : ℕ) (hd : d < 10) : (Nat.digitChar d).isDigit = true := by
  interval_cases d <;> decide

/-- Numeric value recovered from a digit character below ten. -/
theorem digitChar_val (d : ℕ) (hd : d < 10) : (Nat.digitChar d).toNat - 48 = d := by
  interval_cases d <;> decide

/-- All characters produced by the decimal renderer are digits. -/
theorem natToStrAux_digits (fuel : ℕ) :
    ∀ (n : ℕ), ∀ c ∈ natToStrAux fuel n, c.isDigit = true := by
  induction fuel with
  | zero => intro n c hc; simp [natToStrAux] at hc
  | succ fuel ih =>
    intro n c hc
    rw [natToStrAux] at hc
    by_cases h0 : n = 0
    · simp [h0] at hc
    · rw [if_neg h0] at hc
      rcases List.mem_append.mp hc with h | h
      · exact ih (n / 10) c h
      · have hcd : c = Nat.digitChar (n % 10) := by simpa using h
        rw [hcd]
        exact digitChar_isDigit _ (Nat.mod_lt _ (by norm_num))

/-- All characters of `natToStr n` are digits. -/
theorem natToStr_digits (n : ℕ) : ∀ c ∈ natToStr n, c.isDigit = true := by
  rw [natToStr]
  by_cases h0 : n = 0
  · rw [if_pos h0]
    intro c hc
    have : c = '0' := by simpa using hc
    rw [this]; decide
  · rw [if_neg h0]
    exact natToStrAux_digits n n

/-- The rendering `natToStr n` is never empty. -/
theorem natToStr_ne_nil (n : ℕ) : natToStr n ≠ [] := by
  rw [natToStr]
  by_cases h0 : n = 0
  · simp [h0]
  · rw [if_neg h0]
    obtain ⟨m, rfl⟩ := Nat.exists_eq_succ_of_ne_zero h0
    rw [natToStrAux, if_neg h0]
    simp

/-- Folding the decimal-value accumulator over the rendered digits. -/
theorem natToStrAux_foldl (fuel : ℕ) :
    ∀ (n acc : ℕ), n ≤ fuel →
      (natToStrAux fuel n).foldl (fun a c => 10 * a + (c.toNat - 48)) acc =
        acc * 10 ^ (natToStrAux fuel n).length + n := by
  induction fuel with
  | zero =>
    intro n acc h
    obtain rfl : n = 0 := Nat.le_zero.mp h
    simp [natToStrAux]
  | succ fuel ih =>
    intro n acc h
    rw [natToStrAux]
    by_cases h0 : n = 0
    · simp [h0, natToStrAux]
    · rw [if_neg h0, List.foldl_append]
      have hdiv : n / 10 ≤ fuel := by
        have := Nat.div_lt_self (Nat.pos_of_ne_zero h0) (by norm_num : (1 : ℕ) < 10)
        omega
      rw [ih (n / 10) acc hdiv]
      simp only [List.foldl_cons, List.foldl_nil, List.length_append,
        List.length_cons, List.length_nil]
      rw [digitChar_val _ (Nat.mod_lt _ (by norm_num))]
      have hnm : 10 * (n / 10) + n % 10 = n := Nat.div_add_mod n 10
      calc 10 * (acc * 10 ^ (natToStrAux fuel (n / 10)).length + n / 10) + n % 10
          = acc * (10 ^ (natToStrAux fuel (n / 10)).length * 10) +
              (10 * (n / 10) + n % 10) := by ring
        _ = acc * 10 ^ ((natToStrAux fuel (n / 10)).length + (0 + 1)) + n := by
            rw [pow_succ, hnm]

/-- Parsing back the decimal rendering recovers the value. -/
theorem strToNat_natToStr (n : ℕ) : strToNat (natToStr n) = n := by
  rw [natToStr]
  by_cases h0 : n = 0
  · rw [if_pos h0, h0]; decide
  · rw [if_neg h0, strToNat]
    have h := natToStrAux_foldl n n 0 (le_refl n)
    simpa using h

/-- Lemma: `takeWhile` passes over a block satisfying the predicate. -/
theorem takeWhile_append_all (p : α → Bool) (l r : List α)
    (h : ∀ c ∈ l, p c = true) :
    (l ++ r).takeWhile p = l ++ r.takeWhile p := by
  induction l with
  | nil => simp
  | cons c cs ih =>
    have hc : p c = true := h c (by simp)
    simp only [List.cons_append, List.takeWhile_cons, hc, if_true]
    rw [ih (fun x hx => h x (by simp [hx]))]

/-- Lemma: `dropWhile` skips a block satisfying the predicate. -/
theorem dropWhile_append_all (p : α → Bool) (l r : List α)
    (h : ∀ c ∈ l, p c = true) :
    (l ++ r).dropWhile p = r.dropWhile p := by
  induction l with
  | nil => simp
  | cons c cs ih =>
    have hc : p c = true := h c (by simp)
    simp only [List.cons_append, List.dropWhile_cons, hc, if_true]
    exact ih (fun x hx => h x (by simp [hx]))

/-- The greedy digit group reads back exactly the rendered number when a
non-digit follows. -/
theorem readNat_append (n : ℕ) (c : Char) (cs : List Char)
    (hc : c.isDigit = false) :
    readNat (natToStr n ++ c :: cs) = some (n, c :: cs) := by
  have htake : (natToStr n ++ c :: cs).takeWhile Char.isDigit = natToStr n := by
    rw [takeWhile_append_all _ _ _ (natToStr_digits n),
      List.takeWhile_cons_of_neg (by simp [hc])]
    simp
  have hdrop : (natToStr n ++ c :: cs).dropWhile Char.isDigit = c :: cs := by
    rw [dropWhile_append_all _ _ _ (natToStr_digits n),
      List.dropWhile_cons_of_neg (by simp [hc])]
  rw [readNat, htake, hdrop]
  have hne : (natToStr n).isEmpty = false := by
    rcases hh : natToStr n with - | ⟨d, ds⟩
    · exact absurd hh (natToStr_ne_nil n)
    · rfl
  rw [hne]
  simp [strToNat_natToStr]

/-- Expecting a literal prefix succeeds on exactly that prefix. -/
theorem dropLit_append (pre : List Char) :
    ∀ s : List Char, dropLit pre (pre ++ s) = some s := by
  induction pre with
  | nil => intro s; rfl
  | cons c cs ih => intro s; simp [dropLit, ih]

/-- The last-occurrence split of `"_highres."` on a produced vector-render
name: the appended suffix always holds the last occurrence. -/
theorem splitLastHighres_append (l : List Char) :
    splitLastHighres (l ++ ("_highres.png".data)) = some (l, "png".data) := by
  induction l with
  | nil => rfl
  | cons c cs ih =>
    rw [List.cons_append, splitLastHighres, ih]

/-- Embedded-image names parse back to their page, origin and label when
the label is free of `'.'` (the label group of `_IMG_EMBEDDED_RE` is
`[^.]+`). -/
theorem parseEmbedded_roundtrip (page idx : ℕ) (label ext : List Char)
    (hdot : '.' ∉ label) :
    parseEmbedded (embeddedFname page idx label ext) =
      some (page, ImgKind.embedded, label) := by
  match label, hdot with
  | [], _ =>
    have h1 : embeddedFname page idx [] ext =
        "diagram_p".data ++ (natToStr page ++ ('_' :: (natToStr idx ++ '.' :: ext))) := by
      rw [embeddedFname]
      simp [List.append_assoc]
    rw [h1]
    simp only [parseEmbedded, dropLit_append, readNat_append page '_' _ (by decide),
      readNat_append idx '.' ext (by decide)]
  | l0 :: ls, hdot =>
    have hall : ∀ c ∈ l0 :: ls, (decide (c ≠ '.')) = true := by
      intro c hc
      simp only [decide_eq_true_eq]
      intro hcc
      exact hdot (hcc ▸ hc)
    have h1 : embeddedFname page idx (l0 :: ls) ext =
        "diagram_p".data ++
          (natToStr page ++ ('_' :: (natToStr idx ++ '_' :: ((l0 :: ls) ++ '.' :: ext)))) := by
      rw [embeddedFname]
      simp [List.append_assoc]
    have htake : ((l0 :: ls) ++ '.' :: ext).takeWhile (fun c => decide (c ≠ '.')) =
        l0 :: ls := by
      rw [takeWhile_append_all _ _ _ hall, List.takeWhile_cons_of_neg (by decide)]
      simp
    have hdrop : ((l0 :: ls) ++ '.' :: ext).dropWhile (fun c => decide (c ≠ '.')) =
        '.' :: ext := by
      rw [dropWhile_append_all _ _ _ hall, List.dropWhile_cons_of_neg (by decide)]
    rw [h1]
    simp only [parseEmbedded, dropLit_append, readNat_append page '_' _ (by decide),
      readNat_append idx '_' _ (by decide), htake, hdrop, List.isEmpty_cons,
      Bool.false_eq_true, if_false]

/-- The last-occurrence split, restated on the explicit character list of
the suffix (the form simp normalization produces). -/
theorem splitLastHighres_append2 (l : List Char) :
    splitLastHighres (l ++ ['_', 'h', 'i', 'g', 'h', 'r', 'e', 's', '.', 'p', 'n', 'g']) =
      some (l, ['p', 'n', 'g']) := by
  induction l with
  | nil => rfl
  | cons c cs ih =>
    rw [List.cons_append, splitLastHighres, ih]

/-- Vector-render names parse back exactly for every label (the label
group of `_IMG_RENDERED_RE` is the greedy `.+`, which may contain
dots). -/
theorem parseRendered_roundtrip (page : ℕ) (label : List Char) :
    parseRendered (renderedFname page label) =
      some (page, ImgKind.vector_render, label) := by
  match label with
  | [] =>
    have h1 : renderedFname page [] =
        "page_".data ++ (natToStr page ++
          ('_' :: ('h' :: 'i' :: 'g' :: 'h' :: 'r' :: 'e' :: 's' :: '.' :: 'p' :: 'n' :: 'g' :: []))) := by
      rw [renderedFname]
      simp [List.append_assoc]
    rw [h1]
    simp only [parseRendered, dropLit_append,
      readNat_append page '_' _ (by decide)]
    rw [show ('_' :: ('h' :: 'i' :: 'g' :: 'h' :: 'r' :: 'e' :: 's' :: '.' :: 'p' :: 'n' :: 'g' :: []) : List Char) =
      ([] : List Char) ++ ['_', 'h', 'i', 'g', 'h', 'r', 'e', 's', '.', 'p', 'n', 'g'] from rfl]
    simp only [splitLastHighres_append2]
  | l0 :: ls =>
    have h1 : renderedFname page (l0 :: ls) =
        "page_".data ++ (natToStr page ++
          ('_' :: (l0 :: (ls ++ ['_', 'h', 'i', 'g', 'h', 'r', 'e', 's', '.', 'p', 'n', 'g'])))) := by
      rw [renderedFname]
      simp [List.append_assoc]
    rw [h1]
    simp only [parseRendered, dropLit_append,
      readNat_append page '_' _ (by decide)]
    rw [show ('_' :: (l0 :: (ls ++ ['_', 'h', 'i', 'g', 'h', 'r', 'e', 's', '.', 'p', 'n', 'g'])) : List Char) =
      ('_' :: l0 :: ls) ++ ['_', 'h', 'i', 'g', 'h', 'r', 'e', 's', '.', 'p', 'n', 'g'] from rfl]
    simp only [splitLastHighres_append2, List.isEmpty_cons, Bool.false_eq_true, if_false]

/-- Figure-page names parse back to their page, origin and label when the
label is free of `'.'` (the label group of `_IMG_FIGURE_RE` is
`[^.]+`). -/
theorem parseFigure_roundtrip (page : ℕ) (label : List Char)
    (hdot : '.' ∉ label) :
    parseFigure (figureFname page label) =
      some (page, ImgKind.figure_page, label) := by
  match label, hdot with
  | [], _ =>
    have h1 : figureFname page [] =
        "figure_p".data ++ (natToStr page ++ ('.' :: ("png".data))) := by
      rw [figureFname]
      simp [List.append_assoc]
    rw [h1]
    simp only [parseFigure, dropLit_append, readNat_append page '.' _ (by decide)]
  | l0 :: ls, hdot =>
    have hall : ∀ c ∈ l0 :: ls, (decide (c ≠ '.')) = true := by
      intro c hc
      simp only [decide_eq_true_eq]
      intro hcc
      exact hdot (hcc ▸ hc)
    have h1 : figureFname page (l0 :: ls) =
        "figure_p".data ++ (natToStr page ++ ('_' :: ((l0 :: ls) ++ '.' :: ("png".data)))) := by
      rw [figureFname]
      simp [List.append_assoc]
    have htake : ((l0 :: ls) ++ '.' :: ("png".data)).takeWhile (fun c => decide (c ≠ '.')) =
        l0 :: ls := by
      rw [takeWhile_append_all _ _ _ hall, List.takeWhile_cons_of_neg (by decide)]
      simp
    have hdrop : ((l0 :: ls) ++ '.' :: ("png".data)).dropWhile (fun c => decide (c ≠ '.')) =
        '.' :: ("png".data) := by
      rw [dropWhile_append_all _ _ _ hall, List.dropWhile_cons_of_neg (by decide)]
    rw [h1]
    simp only [parseFigure, dropLit_append, readNat_append page '_' _ (by decide),
      htake, hdrop, List.isEmpty_cons, Bool.false_eq_true, if_false]

/-- A name starting with `page_` never matches the embedded pattern. -/
theorem parseEmbedded_page_none (x : List Char) :
    parseEmbedded (("page_".data) ++ x) = none := rfl

/-- A name starting with `figure_p` never matches the embedded pattern. -/
theorem parseEmbedded_figure_none (x : List Char) :
    parseEmbedded (("figure_p".data) ++ x) = none := rfl

/-- A name starting with `figure_p` never matches the rendered pattern. -/
theorem parseRendered_figure_none (x : List Char) :
    parseRendered (("figure_p".data) ++ x) = none := rfl

/-- Produced vector-render names (head `page_`) never match the embedded
pattern (head `diagram_p`). -/
theorem parseEmbedded_renderedFname_none (page : ℕ) (label : List Char) :
    parseEmbedded (renderedFname page label) = none := by
  match label with
  | [] => rfl
  | _ :: _ => rfl

/-- Produced figure names (head `figure_p`) never match the embedded
pattern. -/
theorem parseEmbedded_figureFname_none (page : ℕ) (label : List Char) :
    parseEmbedded (figureFname page label) = none := by
  match label with
  | [] => rfl
  | _ :: _ => rfl

/-- Produced figure names never match the rendered pattern (head
`page_`). -/
theorem parseRendered_figureFname_none (page : ℕ) (label : List Char) :
    parseRendered (figureFname page label) = none := by
  match label with
  | [] => rfl
  | _ :: _ => rfl

/-- A label containing a dot comes back truncated at its first dot from
the embedded pattern (`[^.]+` cannot cross a dot). -/
theorem parseEmbedded_truncation (page idx : ℕ) (l1 l2 ext : List Char)
    (hne : l1 ≠ []) (hdot : '.' ∉ l1) :
    parseEmbedded (embeddedFname page idx (l1 ++ '.' :: l2) ext) =
      some (page, ImgKind.embedded, l1) := by
  match l1, hne, hdot with
  | a0 :: as, _, hdot =>
    have hall : ∀ c ∈ a0 :: as, (decide (c ≠ '.')) = true := by
      intro c hc
      simp only [decide_eq_true_eq]
      intro hcc
      exact hdot (hcc ▸ hc)
    have h1 : embeddedFname page idx ((a0 :: as) ++ '.' :: l2) ext =
        "diagram_p".data ++
          (natToStr page ++ ('_' :: (natToStr idx ++ '_' ::
            ((a0 :: as) ++ ('.' :: (l2 ++ '.' :: ext)))))) := by
      rw [embeddedFname]
      simp [List.append_assoc]
    have htake : ((a0 :: as) ++ ('.' :: (l2 ++ '.' :: ext))).takeWhile
        (fun c => decide (c ≠ '.')) = a0 :: as := by
      rw [takeWhile_append_all _ _ _ hall, List.takeWhile_cons_of_neg (by decide)]
      simp
    have hdrop : ((a0 :: as) ++ ('.' :: (l2 ++ '.' :: ext))).dropWhile
        (fun c => decide (c ≠ '.')) = '.' :: (l2 ++ '.' :: ext) := by
      rw [dropWhile_append_all _ _ _ hall, List.dropWhile_cons_of_neg (by decide)]
    rw [h1]
    simp only [parseEmbedded, dropLit_append, readNat_append page '_' _ (by decide),
      readNat_append idx '_' _ (by decide), htake, hdrop, List.isEmpty_cons,
      Bool.false_eq_true, if_false]

/-- A label containing a dot comes back truncated at its first dot from
the figure pattern as well (its label group is the same `[^.]+`). -/
theorem parseFigure_truncation (page : ℕ) (l1 l2 : List Char)
    (hne : l1 ≠ []) (hdot : '.' ∉ l1) :
    parseFigure (figureFname page (l1 ++ '.' :: l2)) =
      some (page, ImgKind.figure_page, l1) := by
  match l1, hne, hdot with
  | a0 :: as, _, hdot =>
    have hall : ∀ c ∈ a0 :: as, (decide (c ≠ '.')) = true := by
      intro c hc
      simp only [decide_eq_true_eq]
      intro hcc
      exact hdot (hcc ▸ hc)
    have h1 : figureFname page ((a0 :: as) ++ '.' :: l2) =
        "figure_p".data ++
          (natToStr page ++ ('_' ::
            ((a0 :: as) ++ ('.' :: (l2 ++ '.' :: ("png".data)))))) := by
      rw [figureFname]
      simp [List.append_assoc]
    have htake : ((a0 :: as) ++ ('.' :: (l2 ++ '.' :: ("png".data)))).takeWhile
        (fun c => decide (c ≠ '.')) = a0 :: as := by
      rw [takeWhile_append_all _ _ _ hall, List.takeWhile_cons_of_neg (by decide)]
      simp
    have hdrop : ((a0 :: as) ++ ('.' :: (l2 ++ '.' :: ("png".data)))).dropWhile
        (fun c => decide (c ≠ '.')) = '.' :: (l2 ++ '.' :: ("png".data)) := by
      rw [dropWhile_append_all _ _ _ hall, List.dropWhile_cons_of_neg (by decide)]
    rw [h1]
    simp only [parseFigure, dropLit_append, readNat_append page '_' _ (by decide),
      htake, hdrop, List.isEmpty_cons, Bool.false_eq_true, if_false]

/-- C8 counterexample: the sanitizer keeps dots (`_sanitize_label` strips
them only at the edges), so the caption `"Fig. 1"` yields the label
`"Fig._1"`; the resulting embedded filename is parsed with label group
`[^.]+`, which stops at the first dot, so the recovered label `"Fig"`
differs from the embedded sanitized label — the parser does not recover
exactly the label for every producible name (page number and origin are
still recovered). -/
theorem c8_filename_parse_counterexample :
    _sanitize_label ("Fig. 1".data) = "Fig._1".data ∧
    embeddedFname 6 0 ("Fig._1".data) ("png".data) = ("diagram_p6_0_Fig._1.png").data ∧
    _parse_image_filename (("diagram_p6_0_Fig._1.png").data) =
      some (6, ImgKind.embedded, "Fig".data) ∧
    ("Fig".data : List Char) ≠ "Fig._1".data := by
  refine ⟨by decide, by decide, by decide, by decide⟩

/-- C8 (amended): for every produced image filename the parser recovers
the page number and origin type exactly; the sanitized label is
recovered exactly whenever it contains no `'.'` (for vector-render
names: for every label, dots included), and an embedded or figure label
containing a dot is recovered truncated at its first dot — the page
number and origin type are still recovered exactly for those names. -/
theorem c8_filename_parse_amended :
    (∀ (page idx : ℕ) (label ext : List Char), '.' ∉ label →
      _parse_image_filename (embeddedFname page idx label ext) =
        some (page, ImgKind.embedded, label)) ∧
    (∀ (page : ℕ) (label : List Char),
      _parse_image_filename (renderedFname page label) =
        some (page, ImgKind.vector_render, label)) ∧
    (∀ (page : ℕ) (label : List Char), '.' ∉ label →
      _parse_image_filename (figureFname page label) =
        some (page, ImgKind.figure_page, label)) ∧
    (∀ (page idx : ℕ) (l1 l2 ext : List Char), l1 ≠ [] → '.' ∉ l1 →
      _parse_image_filename (embeddedFname page idx (l1 ++ '.' :: l2) ext) =
        some (page, ImgKind.embedded, l1)) ∧
    (∀ (page : ℕ) (l1 l2 : List Char), l1 ≠ [] → '.' ∉ l1 →
      _parse_image_filename (figureFname page (l1 ++ '.' :: l2)) =
        some (page, ImgKind.figure_page, l1)) := by
  refine ⟨?_, ?_, ?_, ?_, ?_⟩
  · intro page idx label ext hdot
    simp only [_parse_image_filename, parseEmbedded_roundtrip page idx label ext hdot]
  · intro page label
    simp only [_parse_image_filename, parseEmbedded_renderedFname_none,
      parseRendered_roundtrip]
  · intro page label hdot
    simp only [_parse_image_filename, parseEmbedded_figureFname_none,
      parseRendered_figureFname_none, parseFigure_roundtrip page label hdot]
  · intro page idx l1 l2 ext hne hdot
    simp only [_parse_image_filename,
      parseEmbedded_truncation page idx l1 l2 ext hne hdot]
  · intro page l1 l2 hne hdot
    simp only [_parse_image_filename, parseEmbedded_figureFname_none,
      parseRendered_figureFname_none, parseFigure_truncation page l1 l2 hne hdot]

/-- Witness for `c8_filename_parse_amended` on the three name shapes,
including a dotted figure label truncated at its first dot (the name is
`figure_p5_Fig._1.png`, whose label parses back as `Fig`). -/
theorem c8_filename_parse_amended_witness :
    _parse_image_filename (embeddedFname 6 0 ("Fig1".data) ("png".data)) =
      some (6, ImgKind.embedded, "Fig1".data) ∧
    _parse_image_filename (renderedFname 11 ("Cooling_Circuit".data)) =
      some (11, ImgKind.vector_render, "Cooling_Circuit".data) ∧
    _parse_image_filename (figureFname 5 []) =
      some (5, ImgKind.figure_page, []) ∧
    _parse_image_filename (figureFname 5 (("Fig".data) ++ '.' :: ("_1".data))) =
      some (5, ImgKind.figure_page, "Fig".data) :=
  ⟨c8_filename_parse_amended.1 6 0 ("Fig1".data) ("png".data) (by decide),
   c8_filename_parse_amended.2.1 11 ("Cooling_Circuit".data),
   c8_filename_parse_amended.2.2.1 5 [] (by decide),
   c8_filename_parse_amended.2.2.2.2 5 ("Fig".data) ("_1".data)
     (by decide) (by decide)⟩
